import Mathlib

/-!
Verification of the reversible-differentiation quantum tape
(`pennylane/beta/tapes/rev.py` and its base-tape collaborators).

The embedding uses rational numbers for gate parameters and a
complex-rational scalar type `CQ` for statevector amplitudes, so that all
definitions are executable.  A statevector over `N` wires is a function
from boolean wire assignments to amplitudes; the device's `einsum`-based
tensor contractions are embedded as finite sums over those assignments.
-/

/-- Complex numbers with rational components; the executable scalar field of
the embedded simulator. -/
structure CQ where
  re : ℚ
  im : ℚ
deriving DecidableEq, Repr

namespace CQ

@[ext] theorem ext {x y : CQ} (hre : x.re = y.re) (him : x.im = y.im) : x = y := by
  cases x; cases y; simp_all

instance : Zero CQ := ⟨⟨0, 0⟩⟩
instance : One CQ := ⟨⟨1, 0⟩⟩
instance : Add CQ := ⟨fun x y => ⟨x.re + y.re, x.im + y.im⟩⟩
instance : Neg CQ := ⟨fun x => ⟨-x.re, -x.im⟩⟩
instance : Mul CQ := ⟨fun x y => ⟨x.re * y.re - x.im * y.im, x.re * y.im + x.im * y.re⟩⟩

/-- Complex conjugation (the device's `_conj` primitive). -/
def conj (x : CQ) : CQ := ⟨x.re, -x.im⟩

@[simp] theorem zero_re : (0 : CQ).re = 0 := rfl
@[simp] theorem zero_im : (0 : CQ).im = 0 := rfl
@[simp] theorem one_re : (1 : CQ).re = 1 := rfl
@[simp] theorem one_im : (1 : CQ).im = 0 := rfl
@[simp] theorem add_re (x y : CQ) : (x + y).re = x.re + y.re := rfl
@[simp] theorem add_im (x y : CQ) : (x + y).im = x.im + y.im := rfl
@[simp] theorem neg_re (x : CQ) : (-x).re = -x.re := rfl
@[simp] theorem neg_im (x : CQ) : (-x).im = -x.im := rfl
@[simp] theorem mul_re (x y : CQ) : (x * y).re = x.re * y.re - x.im * y.im := rfl
@[simp] theorem mul_im (x y : CQ) : (x * y).im = x.re * y.im + x.im * y.re := rfl
@[simp] theorem conj_re (x : CQ) : (conj x).re = x.re := rfl
@[simp] theorem conj_im (x : CQ) : (conj x).im = -x.im := rfl

instance commRing : CommRing CQ where
  add := (· + ·)
  add_assoc a b c := by ext <;> simp <;> ring
  zero := 0
  zero_add a := by ext <;> simp
  add_zero a := by ext <;> simp
  add_comm a b := by ext <;> simp <;> ring
  mul := (· * ·)
  left_distrib a b c := by ext <;> simp <;> ring
  right_distrib a b c := by ext <;> simp <;> ring
  zero_mul a := by ext <;> simp
  mul_zero a := by ext <;> simp
  mul_assoc a b c := by ext <;> simp <;> ring
  one := 1
  one_mul a := by ext <;> simp
  mul_one a := by ext <;> simp
  neg := Neg.neg
  neg_add_cancel a := by ext <;> simp
  mul_comm a b := by ext <;> simp <;> ring
  nsmul n x := ⟨n * x.re, n * x.im⟩
  nsmul_zero x := by ext <;> simp
  nsmul_succ n x := by ext <;> simp <;> ring
  zsmul n x := ⟨n * x.re, n * x.im⟩
  zsmul_zero' x := by ext <;> simp
  zsmul_succ' n x := by ext <;> push_cast <;> simp <;> ring
  zsmul_neg' n x := by ext <;> push_cast <;> simp <;> ring

/-- Embed a rational scalar into `CQ` (used for the real factor
`2 * multiplier` applied to matrix elements). -/
def ofRat (q : ℚ) : CQ := ⟨q, 0⟩

end CQ

/-- Statevector over `N` wires: an amplitude for every boolean assignment of
the wires (index `2^N` array in the device, one tensor index per wire). -/
def StateVec (N : ℕ) : Type := (Fin N → Bool) → CQ

/-- Queued gate: the fields of a PennyLane `Operation` that the tape code
reads (name, ordered wires, ordered numeric parameters, inverse flag) plus
the catalog attribute `grad_method` consulted by gradient-method inference. -/
structure Operation (N : ℕ) where
  name : String
  wires : List (Fin N)
  params : List ℚ
  inverse : Bool
  grad_method : Option String
deriving DecidableEq, Repr

instance {N : ℕ} : Inhabited (Operation N) := ⟨⟨"", [], [], false, none⟩⟩

/-- Measurement return kinds (`qml.operation.Expectation` etc.). -/
inductive ReturnType where
  | Expectation
  | Variance
  | Probability
  | Sample
deriving DecidableEq, Repr

/-- Observable: the wires it acts on, and its matrix reshaped to one index
pair per observable wire (`device._reshape(obs.matrix, [2]*len(wires)*2)`),
row indices first (in `obs.wires` order), column indices second. -/
structure Observable (N : ℕ) where
  wires : List (Fin N)
  mat : (Fin wires.length → Bool) → (Fin wires.length → Bool) → CQ

/-- Measurement declaration wrapping an observable. -/
structure Measurement (N : ℕ) where
  return_type : ReturnType
  obs : Observable N

/-- Quantum tape: ordered operation queue, measurement declarations,
trainable parameter set (ordered global indices) and the `_state` cache
added by `ReversibleTape` (`None` on the base tape). -/
structure QuantumTape (N : ℕ) where
  operations : List (Operation N)
  measurements : List (Measurement N)
  trainable_params : List ℕ
  state : Option (StateVec N)

/-- Statevector device as seen from the tape code: its `_state` and
`_pre_rotated_state` attributes. -/
structure Device (N : ℕ) where
  state : Option (StateVec N)
  pre_rotated_state : Option (StateVec N)

/-- Replace, in assignment `a`, the bit of each observable wire by the
corresponding bit of `j`.  This is the semantic content of the code's index
relabeling: `vec2`'s index string is `vec1`'s with the letter of every
observable wire replaced by the matching fresh output letter, so in the
contraction `vec2` is evaluated at `a` overridden on the observable wires. -/
def overrideOn {N : ℕ} (ws : List (Fin N)) (j : Fin ws.length → Bool)
    (a : Fin N → Bool) : Fin N → Bool :=
  fun w =>
    if h : w ∈ ws then j ⟨ws.indexOf w, List.indexOf_lt_length.mpr h⟩ else a w

namespace ReversibleTape

/-- Embedding of `ReversibleTape._matrix_elem`:  the einsum
`"{v1},{obs},{v2}->"` over `device._conj(vec1)`, the reshaped observable
matrix, and `vec2`, where `vec1` carries one index letter per device wire,
the observable carries those letters on its wires plus fresh output letters,
and `vec2` carries `vec1`'s letters with each observable-wire letter
replaced by the matching output letter.  Summing over all letters gives a
sum over full assignments `a` and output assignments `j`. -/
def _matrix_elem {N : ℕ} (vec1 : StateVec N) (obs : Observable N)
    (vec2 : StateVec N) : CQ :=
  ∑ a : Fin N → Bool, ∑ j : Fin obs.wires.length → Bool,
    CQ.conj (vec1 a) * obs.mat (fun k => a (obs.wires.get k)) j *
      vec2 (overrideOn obs.wires j a)

end ReversibleTape

/-- Written from the spec's words for the refinement claim about
`_matrix_elem`: the observable extended to the device's full wire set,
acting as its matrix on its own wires and as the identity on every wire it
does not act on (spectator wires). -/
def obsFullMatrix {N : ℕ} (obs : Observable N) (a b : Fin N → Bool) : CQ :=
  if ∀ w : Fin N, w ∉ obs.wires → a w = b w then
    obs.mat (fun k => a (obs.wires.get k)) (fun k => b (obs.wires.get k))
  else 0

/-- Written from the spec's words: the extended observable applied to a
statevector. -/
def applyObs {N : ℕ} (obs : Observable N) (v : StateVec N) : StateVec N :=
  fun a => ∑ b : Fin N → Bool, obsFullMatrix obs a b * v b

/-- Written from the spec's words: the inner product `⟨u|v⟩` of two
statevectors over the device's wires. -/
def innerProd {N : ℕ} (u v : StateVec N) : CQ :=
  ∑ a : Fin N → Bool, CQ.conj (u a) * v a

/-- Helper: `overrideOn` leaves wires outside the list untouched. -/
theorem overrideOn_not_mem {N : ℕ} {ws : List (Fin N)} (j : Fin ws.length → Bool)
    (a : Fin N → Bool) {w : Fin N} (hw : w ∉ ws) : overrideOn ws j a w = a w :=
  dif_neg hw

/-- Helper: on a duplicate-free wire list, `overrideOn` places bit `j k` on
the `k`-th listed wire. -/
theorem overrideOn_get {N : ℕ} {ws : List (Fin N)} (hnd : ws.Nodup)
    (j : Fin ws.length → Bool) (a : Fin N → Bool) (k : Fin ws.length) :
    overrideOn ws j a (ws.get k) = j k := by
  have hmem : ws.get k ∈ ws := List.get_mem ws k.1 k.2
  simp only [overrideOn, dif_pos hmem]
  congr 1
  apply Fin.ext
  simp only [List.get_eq_getElem]
  exact List.indexOf_getElem hnd k.1 k.2

theorem matrix_elem_spec {N : ℕ} (v1 v2 : StateVec N) (obs : Observable N)
    (hnd : obs.wires.Nodup) :
    ReversibleTape._matrix_elem v1 obs v2 = innerProd v1 (applyObs obs v2) := by
  unfold ReversibleTape._matrix_elem innerProd applyObs
  refine Finset.sum_congr rfl (fun a _ => ?_)
  rw [Finset.mul_sum]
  have hsplit : ∀ b : Fin N → Bool,
      CQ.conj (v1 a) * (obsFullMatrix obs a b * v2 b) =
        if ∀ w : Fin N, w ∉ obs.wires → a w = b w then
          CQ.conj (v1 a) * obs.mat (fun k => a (obs.wires.get k))
            (fun k => b (obs.wires.get k)) * v2 b
        else 0 := by
    intro b
    unfold obsFullMatrix
    split
    · ring
    · simp
  simp only [hsplit]
  rw [← Finset.sum_filter]
  refine Finset.sum_bij' (fun j _ => overrideOn obs.wires j a)
    (fun b _ => fun k => b (obs.wires.get k)) ?_ ?_ ?_ ?_ ?_
  · intro j _
    simp only [Finset.mem_filter, Finset.mem_univ, true_and]
    intro w hw
    exact (overrideOn_not_mem j a hw).symm
  · intro b _
    exact Finset.mem_univ _
  · intro j _
    funext k
    exact overrideOn_get hnd j a k
  · intro b hb
    simp only [Finset.mem_filter, Finset.mem_univ, true_and] at hb
    funext w
    dsimp only
    by_cases hw : w ∈ obs.wires
    · simp only [overrideOn, dif_pos hw, List.get_eq_getElem]
      exact congrArg b (List.getElem_indexOf (List.indexOf_lt_length.mpr hw))
    · rw [overrideOn_not_mem _ a hw]
      exact hb w hw
  · intro j _
    have hcol : (fun k => overrideOn obs.wires j a (obs.wires.get k)) = j := by
      funext k
      exact overrideOn_get hnd j a k
    rw [hcol]

namespace QuantumTape

/-- Flattened parameter list of the queue: global parameter indices are
assigned in first-appearance queue order, contiguous from 0. -/
def all_params {N : ℕ} (t : QuantumTape N) : List ℚ :=
  (t.operations.map (fun o => o.params)).flatten

/-- Embedding of `get_parameters` (with the default trainable-only filter):
the current values at the trainable global indices, in ascending order of
the trainable list. -/
def get_parameters {N : ℕ} (t : QuantumTape N) : List ℚ :=
  t.trainable_params.filterMap (fun gi => t.all_params.get? gi)

/-- Write values into a flat parameter list at the given global indices, in
order. -/
def writeFlat : List ℚ → List ℕ → List ℚ → List ℚ
  | flat, [], _ => flat
  | flat, _ :: _, [] => flat
  | flat, g :: gs, v :: vs => writeFlat (flat.set g v) gs vs

/-- Distribute a flat parameter list back onto the operation queue, each
operation taking as many values as it owns. -/
def reassign {N : ℕ} : List (Operation N) → List ℚ → List (Operation N)
  | [], _ => []
  | o :: os, flat =>
    { o with params := flat.take o.params.length } :: reassign os (flat.drop o.params.length)

/-- Embedding of `set_parameters` (trainable-only): writes the values back
into the owning operations at their local indices. -/
def set_parameters {N : ℕ} (t : QuantumTape N) (vals : List ℚ) : QuantumTape N :=
  { t with operations := reassign t.operations (writeFlat t.all_params t.trainable_params vals) }

/-- Number of parameters owned by each queued operation, in queue order. -/
def par_shape {N : ℕ} (t : QuantumTape N) : List ℕ :=
  t.operations.map (fun o => o.params.length)

/-- Walk a parameter-count shape to find the owning operation position and
local index of a global parameter index (the `_par_info` table's
`op`/`p_idx` entries). -/
def locate : List ℕ → ℕ → Option (ℕ × ℕ)
  | [], _ => none
  | n :: ns, gi =>
    if gi < n then some (0, gi) else (locate ns (gi - n)).map (fun q => (q.1 + 1, q.2))

/-- Owning operation position and local index of a global parameter index. -/
def par_info {N : ℕ} (t : QuantumTape N) (gi : ℕ) : Option (ℕ × ℕ) :=
  locate t.par_shape gi

/-- The `analytic_pd` entry lookups: `t_idx = list(trainable_params)[idx]`
followed by the `_par_info` lookup. -/
def owner {N : ℕ} (t : QuantumTape N) (idx : ℕ) : Option (ℕ × ℕ) :=
  (t.trainable_params.get? idx).bind t.par_info

end QuantumTape

/-- Structural identity of an operation: every field except the parameter
values. -/
def stripParams {N : ℕ} (o : Operation N) : String × List (Fin N) × Bool × Option String :=
  (o.name, o.wires, o.inverse, o.grad_method)

theorem writeFlat_length (flat : List ℚ) (gs : List ℕ) (vs : List ℚ) :
    (QuantumTape.writeFlat flat gs vs).length = flat.length := by
  induction gs generalizing flat vs with
  | nil => simp [QuantumTape.writeFlat]
  | cons g gs ih =>
    cases vs with
    | nil => simp [QuantumTape.writeFlat]
    | cons v vs => simp [QuantumTape.writeFlat, ih]

theorem writeFlat_get_not_mem (flat : List ℚ) (gs : List ℕ) (vs : List ℚ)
    (g : ℕ) (hg : g ∉ gs) :
    (QuantumTape.writeFlat flat gs vs).get? g = flat.get? g := by
  induction gs generalizing flat vs with
  | nil => simp [QuantumTape.writeFlat]
  | cons g' gs ih =>
    cases vs with
    | nil => simp [QuantumTape.writeFlat]
    | cons v vs =>
      have hne : g' ≠ g := fun h => hg (h ▸ List.mem_cons_self g' gs)
      rw [QuantumTape.writeFlat, ih _ _ (fun h => hg (List.mem_cons_of_mem _ h))]
      simp [List.getElem?_set_ne hne]

theorem writeFlat_read_back (flat : List ℚ) (gs : List ℕ) (vs : List ℚ)
    (hnd : gs.Nodup) (hlt : ∀ g ∈ gs, g < flat.length) (hlen : vs.length = gs.length) :
    gs.filterMap (fun g => (QuantumTape.writeFlat flat gs vs).get? g) = vs := by
  induction gs generalizing flat vs with
  | nil => cases vs with
    | nil => rfl
    | cons v vs => simp at hlen
  | cons g gs ih =>
    cases vs with
    | nil => simp at hlen
    | cons v vs =>
      rw [QuantumTape.writeFlat, List.filterMap_cons]
      have hgmem : g ∉ gs := (List.nodup_cons.mp hnd).1
      have hhead : (QuantumTape.writeFlat (flat.set g v) gs vs).get? g = some v := by
        rw [writeFlat_get_not_mem _ _ _ _ hgmem]
        have hglt : g < flat.length := hlt g (List.mem_cons_self g gs)
        simp [List.getElem?_set_self', hglt]
      rw [hhead]
      have htail : gs.filterMap (fun x => (QuantumTape.writeFlat (flat.set g v) gs vs).get? x) = vs := by
        refine ih (flat.set g v) vs (List.nodup_cons.mp hnd).2 ?_ (by simpa using hlen)
        intro x hx
        simpa using hlt x (List.mem_cons_of_mem _ hx)
      rw [htail]

theorem reassign_flatten {N : ℕ} (ops : List (Operation N)) (flat : List ℚ)
    (hlen : flat.length = (ops.map (fun o => o.params.length)).sum) :
    ((QuantumTape.reassign ops flat).map (fun o => o.params)).flatten = flat := by
  induction ops generalizing flat with
  | nil =>
    simp only [List.map_nil, List.sum_nil] at hlen
    simp [QuantumTape.reassign, List.length_eq_zero.mp hlen]
  | cons o os ih =>
    simp only [List.map_cons, List.sum_cons] at hlen
    have hdrop : (flat.drop o.params.length).length = (os.map (fun o => o.params.length)).sum := by
      simp [List.length_drop, hlen]
    simp only [QuantumTape.reassign, List.map_cons, List.flatten_cons, ih _ hdrop]
    exact List.take_append_drop _ _

theorem reassign_shape {N : ℕ} (ops : List (Operation N)) (flat : List ℚ)
    (hlen : flat.length = (ops.map (fun o => o.params.length)).sum) :
    (QuantumTape.reassign ops flat).map (fun o => o.params.length) =
      ops.map (fun o => o.params.length) := by
  induction ops generalizing flat with
  | nil => rfl
  | cons o os ih =>
    simp only [List.map_cons, List.sum_cons] at hlen
    have hle : o.params.length ≤ flat.length := by omega
    have hdrop : (flat.drop o.params.length).length = (os.map (fun o => o.params.length)).sum := by
      simp [List.length_drop, hlen]
    simp only [QuantumTape.reassign, List.map_cons, ih _ hdrop]
    simp [List.length_take, Nat.min_eq_left hle]

theorem reassign_strip {N : ℕ} (ops : List (Operation N)) (flat : List ℚ) :
    (QuantumTape.reassign ops flat).map stripParams = ops.map stripParams := by
  induction ops generalizing flat with
  | nil => rfl
  | cons o os ih => simp [QuantumTape.reassign, ih, stripParams]

namespace QuantumTape

theorem all_params_length {N : ℕ} (t : QuantumTape N) :
    t.all_params.length = t.par_shape.sum := by
  simp only [all_params, par_shape, List.length_flatten, List.map_map]
  rfl

@[simp] theorem set_parameters_measurements {N : ℕ} (t : QuantumTape N) (vals : List ℚ) :
    (t.set_parameters vals).measurements = t.measurements := rfl

@[simp] theorem set_parameters_trainable {N : ℕ} (t : QuantumTape N) (vals : List ℚ) :
    (t.set_parameters vals).trainable_params = t.trainable_params := rfl

@[simp] theorem set_parameters_state {N : ℕ} (t : QuantumTape N) (vals : List ℚ) :
    (t.set_parameters vals).state = t.state := rfl

theorem set_parameters_all_params {N : ℕ} (t : QuantumTape N) (vals : List ℚ) :
    (t.set_parameters vals).all_params = writeFlat t.all_params t.trainable_params vals := by
  have hlen : (writeFlat t.all_params t.trainable_params vals).length =
      (t.operations.map (fun o => o.params.length)).sum := by
    rw [writeFlat_length]
    exact t.all_params_length
  exact reassign_flatten _ _ hlen

theorem set_parameters_par_shape {N : ℕ} (t : QuantumTape N) (vals : List ℚ) :
    (t.set_parameters vals).par_shape = t.par_shape := by
  have hlen : (writeFlat t.all_params t.trainable_params vals).length =
      (t.operations.map (fun o => o.params.length)).sum := by
    rw [writeFlat_length]
    exact t.all_params_length
  exact reassign_shape _ _ hlen

theorem set_parameters_strip {N : ℕ} (t : QuantumTape N) (vals : List ℚ) :
    (t.set_parameters vals).operations.map stripParams = t.operations.map stripParams :=
  reassign_strip _ _

theorem set_parameters_all_params_length {N : ℕ} (t : QuantumTape N) (vals : List ℚ) :
    (t.set_parameters vals).all_params.length = t.all_params.length := by
  rw [set_parameters_all_params, writeFlat_length]

/-- Round trip: setting the trainable parameters and reading them back
returns exactly the written values. -/
theorem get_parameters_set_parameters {N : ℕ} (t : QuantumTape N) (vals : List ℚ)
    (hnd : t.trainable_params.Nodup)
    (hlt : ∀ g ∈ t.trainable_params, g < t.all_params.length)
    (hlen : vals.length = t.trainable_params.length) :
    (t.set_parameters vals).get_parameters = vals := by
  unfold get_parameters
  rw [set_parameters_trainable, set_parameters_all_params]
  exact writeFlat_read_back _ _ _ hnd hlt hlen

theorem filterMap_get_length (gs : List ℕ) (flat : List ℚ)
    (hlt : ∀ g ∈ gs, g < flat.length) :
    (gs.filterMap (fun g => flat.get? g)).length = gs.length := by
  induction gs with
  | nil => rfl
  | cons g gs ih =>
    have hg : g < flat.length := hlt g (List.mem_cons_self g gs)
    rw [List.filterMap_cons]
    rw [List.get?_eq_getElem?, List.getElem?_eq_getElem hg]
    simp only [List.length_cons]
    rw [ih (fun x hx => hlt x (List.mem_cons_of_mem _ hx))]

theorem get_parameters_length {N : ℕ} (t : QuantumTape N)
    (hlt : ∀ g ∈ t.trainable_params, g < t.all_params.length) :
    t.get_parameters.length = t.trainable_params.length :=
  filterMap_get_length _ _ hlt

end QuantumTape

/-- Inverted copy of an operation (`copy(op).inv()` — a fresh operation
value with the inverse flag flipped; the source object is untouched). -/
def invOp {N : ℕ} (o : Operation N) : Operation N := { o with inverse := !o.inverse }

/-- Instantiate a generator class on wires (`generator(wires)`): a bare
parameterless gate named after the generator. -/
def mkGen {N : ℕ} (gname : String) (w : List (Fin N)) : Operation N :=
  ⟨gname, w, [], false, none⟩

/-- Run a list of operations on a statevector with the device backend's
single-operation semantics `applyOp`.  The backend itself is out of scope
per the spec, so it is a parameter of the embedding. -/
def applyOps {N : ℕ} (applyOp : Operation N → StateVec N → StateVec N)
    (ops : List (Operation N)) (s : StateVec N) : StateVec N :=
  ops.foldl (fun st o => applyOp o st) s

/-- All-zero computational basis state, the device's reset state. -/
def ket0 (N : ℕ) : StateVec N := fun a => if ∀ i, a i = false then 1 else 0

/-- Modelled from the spec: the base tape's `execute_device` — the base
class file `tape.py` is not under src/.  Per the Executor section it
evaluates the full tape on the device at the transiently bound parameter
values; the device is left exposing the pre-rotated statevector. -/
def QuantumTape.execute_device {N : ℕ} (applyOp : Operation N → StateVec N → StateVec N)
    (t : QuantumTape N) (params : List ℚ) (_d : Device N) : Device N :=
  let s := applyOps applyOp (t.set_parameters params).operations (ket0 N)
  { state := some s, pre_rotated_state := some s }

/-- Errors raised by `analytic_pd`: the two `ValueError`s naming the
offending kind, plus the Python crash paths (an out-of-range index; a
missing generator/decomposition entry). -/
inductive PDError where
  | UnsupportedReturnType (rt : ReturnType)
  | UnsupportedOperation (name : String)
  | IndexError
  | MissingGenerator
deriving DecidableEq, Repr

/-- Result of one `analytic_pd` call: the returned vector (or the error),
the tape and device as left behind by the call, the number of full-tape
device executions performed, and the operation list of the local replay
circuit `diff_circuit` that was built (empty if the call failed first). -/
structure PDResult (N : ℕ) where
  out : Except PDError (List ℚ)
  tape : QuantumTape N
  device : Device N
  execs : ℕ
  diffOps : List (Operation N)

/-- Predicate of the measurement-kind check loop in `analytic_pd`. -/
def badMeasurement {N : ℕ} (m : Measurement N) : Bool :=
  match m.return_type with
  | ReturnType.Variance => true
  | ReturnType.Probability => true
  | _ => false

/-- Generator selection and suffix assembly of `analytic_pd` (lines
175-180): for `Rot`, the generator and multiplier come from the `p_idx`-th
operation of the decomposition and the remaining decomposition steps are
prepended to the outer suffix; otherwise they come from the operation
itself and the suffix is unchanged. -/
def genAndBetween {N : ℕ} (generator : Operation N → Option (String × ℚ))
    (decomposition : Operation N → List (Operation N))
    (op : Operation N) (p_idx : ℕ) (between0 : List (Operation N)) :
    Option (String × ℚ × List (Operation N)) :=
  if op.name = "Rot" then
    match (decomposition op).get? p_idx with
    | none => none
    | some dop =>
      (generator dop).map
        (fun gm => (gm.1, gm.2, (decomposition op).drop (p_idx + 1) ++ between0))
  else
    (generator op).map (fun gm => (gm.1, gm.2, between0))

namespace ReversibleTape

/-- Embedding of `ReversibleTape.analytic_pd`.  The operation/observable
catalog is out of scope per the spec, so the generator table, decomposition
table and backend gate semantics are parameters.  The steps mirror the
source order: parameter-info lookups; the Variance/Probability check; the
RX/RY/RZ/Rot whitelist check; execute the full tape once if the `_state`
cache is empty and cache the device's pre-rotated state; bind the call's
parameter values; build the replay circuit (the inverted suffix reversed,
the bare generator on the owning operation's wires, the suffix); seed the
device with the cached state and run the replay circuit; contract the
resulting state with every declared observable against the cached state;
restore the device's pre-rotated state to the cached one; return
`2 * multiplier * imag` of the contractions.  Here: the state-caching step
(lines 160-162); on an empty cache the full tape is executed at the bound
parameter values and the device's pre-rotated state is cached. -/
def cachedState {N : ℕ} (applyOp : Operation N → StateVec N → StateVec N)
    (t : QuantumTape N) (params : List ℚ) (d : Device N) : StateVec N :=
  match t.state with
  | some s => s
  | none =>
    (QuantumTape.execute_device applyOp t params d).pre_rotated_state.getD (ket0 N)

/-- Embedding of the replay part of `analytic_pd` (lines 160-204), reached
after both validation checks pass: cache the pre-measurement state, bind
the parameters, build and run the local replay circuit, contract against
every declared observable, restore the device's pre-rotated state. -/
def analytic_pd_core {N : ℕ} (applyOp : Operation N → StateVec N → StateVec N)
    (generator : Operation N → Option (String × ℚ))
    (decomposition : Operation N → List (Operation N))
    (t : QuantumTape N) (op_idx p_idx : ℕ) (d : Device N) (params : List ℚ) : PDResult N :=
  let cached : StateVec N := cachedState applyOp t params d
  let execs : ℕ := match t.state with | some _ => 0 | none => 1
  let d1 : Device N :=
    match t.state with
    | some _ => d
    | none => QuantumTape.execute_device applyOp t params d
  let t1 : QuantumTape N := { t with state := some cached }
  let t2 := t1.set_parameters params
  let op2 := (t2.operations.get? op_idx).getD default
  let between0 := t2.operations.drop (op_idx + 1)
  match genAndBetween generator decomposition op2 p_idx between0 with
  | none => ⟨Except.error PDError.MissingGenerator, t2, d1, execs, []⟩
  | some (gname, mult, between) =>
    let diffOps := (between.reverse.map invOp) ++ [mkGen gname op2.wires] ++ between
    let dstate := applyOps applyOp diffOps cached
    let vals := t2.measurements.map
      (fun m => 2 * mult * (_matrix_elem dstate m.obs cached).im)
    ⟨Except.ok vals, t2, ⟨some dstate, some cached⟩, execs, diffOps⟩

/-- Embedding of `ReversibleTape.analytic_pd`: the entry lookups and the two
validation checks in source order, then the replay core. -/
def analytic_pd {N : ℕ} (applyOp : Operation N → StateVec N → StateVec N)
    (generator : Operation N → Option (String × ℚ))
    (decomposition : Operation N → List (Operation N))
    (t : QuantumTape N) (idx : ℕ) (d : Device N) (params : List ℚ) : PDResult N :=
  match QuantumTape.owner t idx with
  | none => ⟨Except.error PDError.IndexError, t, d, 0, []⟩
  | some (op_idx, p_idx) =>
    match t.operations.get? op_idx with
    | none => ⟨Except.error PDError.IndexError, t, d, 0, []⟩
    | some op =>
      match t.measurements.find? badMeasurement with
      | some m => ⟨Except.error (PDError.UnsupportedReturnType m.return_type), t, d, 0, []⟩
      | none =>
        if op.name ∈ ["RX", "RY", "RZ", "Rot"] then
          analytic_pd_core applyOp generator decomposition t op_idx p_idx d params
        else ⟨Except.error (PDError.UnsupportedOperation op.name), t, d, 0, []⟩

end ReversibleTape

/-- Result of one `jacobian` call: the per-parameter rows (or the error),
the final tape and device, and the number of full-tape device executions. -/
structure JacResult (N : ℕ) where
  out : Except PDError (List (List ℚ))
  tape : QuantumTape N
  device : Device N
  execs : ℕ

/-- Modelled from the spec: the per-parameter loop of the base tape's
`jacobian` on the analytic path — `tape.py` is not under src/.  One row per
trainable parameter from `analytic_pd`, threading the tape and device; any
error aborts the whole call. -/
def jacobianRows {N : ℕ} (applyOp : Operation N → StateVec N → StateVec N)
    (generator : Operation N → Option (String × ℚ))
    (decomposition : Operation N → List (Operation N)) :
    List ℕ → QuantumTape N → Device N → List ℚ →
      Except PDError (List (List ℚ)) × QuantumTape N × Device N × ℕ
  | [], t, d, _ => (Except.ok [], t, d, 0)
  | i :: rest, t, d, ps =>
    let r := ReversibleTape.analytic_pd applyOp generator decomposition t i d ps
    match r.out with
    | Except.error e => (Except.error e, r.tape, r.device, r.execs)
    | Except.ok row =>
      let res := jacobianRows applyOp generator decomposition rest r.tape r.device ps
      match res.1 with
      | Except.error e => (Except.error e, res.2.1, res.2.2.1, r.execs + res.2.2.2)
      | Except.ok rows => (Except.ok (row :: rows), res.2.1, res.2.2.1, r.execs + res.2.2.2)

/-- Modelled from the spec: the base tape's `jacobian` — `tape.py` is not
under src/.  Per the GradientEngine section: bind `params` transiently if
given, produce one row per trainable parameter (here via the analytic
per-parameter routine), and restore the previously persisted parameter
values afterwards. -/
def QuantumTape.jacobianA {N : ℕ} (applyOp : Operation N → StateVec N → StateVec N)
    (generator : Operation N → Option (String × ℚ))
    (decomposition : Operation N → List (Operation N))
    (t : QuantumTape N) (d : Device N) (params : Option (List ℚ)) : JacResult N :=
  let saved := t.get_parameters
  let ps := params.getD saved
  let res := jacobianRows applyOp generator decomposition
    (List.range t.trainable_params.length) t d ps
  match res.1 with
  | Except.error e => ⟨Except.error e, res.2.1, res.2.2.1, res.2.2.2⟩
  | Except.ok rows => ⟨Except.ok rows, res.2.1.set_parameters saved, res.2.2.1, res.2.2.2⟩

/-- Embedding of `ReversibleTape.jacobian` (rev.py lines 120-126): set the
`_state` cache to `None` so the statevector is calculated only once, then
delegate to the base class. -/
def ReversibleTape.jacobian {N : ℕ} (applyOp : Operation N → StateVec N → StateVec N)
    (generator : Operation N → Option (String × ℚ))
    (decomposition : Operation N → List (Operation N))
    (t : QuantumTape N) (d : Device N) (params : Option (List ℚ)) : JacResult N :=
  QuantumTape.jacobianA applyOp generator decomposition { t with state := none } d params

/-- Modelled from the spec: the base tape's `execute` — `tape.py` is not
under src/.  Per the Executor section: bind `params` transiently if given,
delegate to the device, assemble one result per measurement in declared
order, and restore the previously persisted values afterwards. -/
def QuantumTape.execute {N : ℕ} (applyOp : Operation N → StateVec N → StateVec N)
    (t : QuantumTape N) (_d : Device N) (params : Option (List ℚ)) :
    List CQ × QuantumTape N × Device N :=
  let saved := t.get_parameters
  let ps := params.getD saved
  let t1 := t.set_parameters ps
  let s := applyOps applyOp t1.operations (ket0 N)
  let results := t1.measurements.map (fun m => innerProd s (applyObs m.obs s))
  (results, t1.set_parameters saved, ⟨some s, some s⟩)

/-- Modelled from the spec: the DependencyGraph's reachability query — wires
influenced by the operation propagate through every later operation sharing
a wire; the operation reaches an observable if the observable touches an
influenced wire. -/
def reachesObservable {N : ℕ} (t : QuantumTape N) (op_idx : ℕ) : Bool :=
  let start := ((t.operations.get? op_idx).map (fun o => o.wires)).getD []
  let reach := (t.operations.drop (op_idx + 1)).foldl
    (fun acc o => if o.wires.any (fun w => acc.contains w) then acc ++ o.wires else acc) start
  t.measurements.any (fun m => m.obs.wires.any (fun w => reach.contains w))

/-- Modelled from the spec: the base tape's `_grad_method` — `tape.py` is
not under src/, and its behavior is pinned by the src tests
(`TestGradMethod`): `None` when the owning operation carries no gradient
rule at all, `"0"` when graph reachability shows no path to any observable
(only with `use_graph`), and otherwise the caller's default method. -/
def QuantumTape._grad_method {N : ℕ} (t : QuantumTape N) (idx : ℕ)
    (use_graph : Bool) (default_method : String) : Option String :=
  match t.par_info idx with
  | none => none
  | some (op_idx, _) =>
    match t.operations.get? op_idx with
    | none => none
    | some op =>
      match op.grad_method with
      | none => none
      | some _ =>
        if use_graph && !(reachesObservable t op_idx) then some "0"
        else some default_method

/-- Embedding of `ReversibleTape._grad_method` (rev.py lines 79-80): it
delegates to the base method unchanged; its only difference is the default
method `"A"` instead of the base default `"F"`. -/
def ReversibleTape._grad_method {N : ℕ} (t : QuantumTape N) (idx : ℕ)
    (use_graph : Bool) (default_method : String) : Option String :=
  QuantumTape._grad_method t idx use_graph default_method

/-! Concrete fixtures used by the witness and counterexample theorems. -/

/-- Wire 0 of a one-wire device. -/
def w0 : Fin 1 := 0

/-- A concrete `RX` gate on wire 0. -/
def opRX1 : Operation 1 := ⟨"RX", [w0], [1/2], false, some "A"⟩

/-- A concrete `RY` gate on wire 0. -/
def opRY1 : Operation 1 := ⟨"RY", [w0], [3/5], false, some "A"⟩

/-- The Pauli-Z observable on wire 0 of a one-wire device. -/
def obsZ : Observable 1 :=
  ⟨[w0], fun r c =>
    if r ⟨0, by simp⟩ = c ⟨0, by simp⟩ then (if r ⟨0, by simp⟩ then -1 else 1) else 0⟩

/-- Expectation measurement of `obsZ`. -/
def measZ : Measurement 1 := ⟨ReturnType.Expectation, obsZ⟩

/-- One-wire tape with a single trainable `RX`. -/
def tapeRX : QuantumTape 1 := ⟨[opRX1], [measZ], [0], none⟩

/-- Two-operation one-wire tape (`RX` then `RY`), both parameters
trainable. -/
def tapeRXRY : QuantumTape 1 := ⟨[opRX1, opRY1], [measZ], [0, 1], none⟩

/-- Concrete generator table for the rotation gates (the catalog is an
external collaborator per the spec): `RX ↦ (PauliX, -1/2)` and so on. -/
def genTable : Operation 1 → Option (String × ℚ) := fun o =>
  if o.name = "RX" then some ("PauliX", -(1/2))
  else if o.name = "RY" then some ("PauliY", -(1/2))
  else if o.name = "RZ" then some ("PauliZ", -(1/2))
  else none

/-- Concrete decomposition table: `Rot(a,b,c) ↦ [RZ(a), RY(b), RZ(c)]`. -/
def decompTable : Operation 1 → List (Operation 1) := fun o =>
  if o.name = "Rot" then
    match o.params with
    | [a, b, c] =>
      [⟨"RZ", o.wires, [a], false, some "A"⟩,
       ⟨"RY", o.wires, [b], false, some "A"⟩,
       ⟨"RZ", o.wires, [c], false, some "A"⟩]
    | _ => []
  else []

/-- Trivial backend semantics (the backend is external; witnesses only need
some semantics). -/
def applyId : Operation 1 → StateVec 1 → StateVec 1 := fun _ s => s

/-- Fresh one-wire device. -/
def dev0 : Device 1 := ⟨none, none⟩

/-- A concrete three-parameter `Rot` gate on wire 0. -/
def opRot : Operation 1 := ⟨"Rot", [w0], [1, 2, 3], false, some "A"⟩

/-- One-wire tape with a single trainable `Rot`, all three parameters
trainable. -/
def tapeRot : QuantumTape 1 := ⟨[opRot], [measZ], [0, 1, 2], none⟩

/-- The `tapeRX` tape with a Variance measurement instead. -/
def tapeVar : QuantumTape 1 := ⟨[opRX1], [⟨ReturnType.Variance, obsZ⟩], [0], none⟩

/-- One-wire tape whose only gate is outside the RX/RY/RZ/Rot whitelist. -/
def tapeBadOp : QuantumTape 1 :=
  ⟨[⟨"PhaseShift", [w0], [1], false, some "A"⟩], [measZ], [0], none⟩

/-- Two concrete one-wire statevectors. -/
def sv1 : StateVec 1 := fun a => if a 0 then ⟨0, 1⟩ else ⟨1, 0⟩

/-- A second concrete one-wire statevector. -/
def sv2 : StateVec 1 := fun a => if a 0 then ⟨2, -1⟩ else ⟨0, 3⟩

/-- Wire 0 of a two-wire device. -/
def v0 : Fin 2 := 0

/-- Wire 1 of a two-wire device. -/
def v1 : Fin 2 := 1

/-- The Pauli-Y observable on wire 0 of a two-wire device. -/
def obsY0 : Observable 2 :=
  ⟨[v0], fun r c =>
    if r ⟨0, by simp⟩ = c ⟨0, by simp⟩ then 0
    else if r ⟨0, by simp⟩ then ⟨0, 1⟩ else ⟨0, -1⟩⟩

/-- The independence scenario of the src test `TestGradMethod
.test_independent`: `RX` on wire 0, `RY` on wire 1, an expectation of
Pauli-Y on wire 0; both parameters trainable. -/
def tapeInd : QuantumTape 2 :=
  ⟨[⟨"RX", [v0], [543/1000], false, some "A"⟩,
    ⟨"RY", [v1], [-(654/1000)], false, some "A"⟩],
   [⟨ReturnType.Expectation, obsY0⟩], [0, 1], none⟩

namespace ReversibleTape

/-- Whatever the generator lookup yields, the core leaves behind the tape
with the cached state recorded and the call parameters bound. -/
theorem analytic_pd_core_tape {N : ℕ}
    (applyOp : Operation N → StateVec N → StateVec N)
    (generator : Operation N → Option (String × ℚ))
    (decomposition : Operation N → List (Operation N))
    (t : QuantumTape N) (op_idx p_idx : ℕ) (d : Device N) (ps : List ℚ) :
    (analytic_pd_core applyOp generator decomposition t op_idx p_idx d ps).tape =
      QuantumTape.set_parameters
        { t with state := some (cachedState applyOp t ps d) } ps := by
  unfold analytic_pd_core
  dsimp only
  split <;> rfl

/-- The core performs one full-tape execution exactly when the cache was
empty. -/
theorem analytic_pd_core_execs {N : ℕ}
    (applyOp : Operation N → StateVec N → StateVec N)
    (generator : Operation N → Option (String × ℚ))
    (decomposition : Operation N → List (Operation N))
    (t : QuantumTape N) (op_idx p_idx : ℕ) (d : Device N) (ps : List ℚ) :
    (analytic_pd_core applyOp generator decomposition t op_idx p_idx d ps).execs =
      match t.state with | some _ => 0 | none => 1 := by
  unfold analytic_pd_core
  dsimp only
  split <;> rfl

end ReversibleTape

/-- C3: for every observable and statevectors over the device's wires,
`ReversibleTape._matrix_elem` computes the scalar ⟨vec1|obs|vec2⟩: the
conjugate of `vec1` contracted with the observable matrix (one index pair
per observable wire), the observable wires' index letters relabeled in
`vec2`'s index string so the two statevectors' free indices align over the
same ordered wire set, and every wire the observable does not act on
contracted as identity between the two vectors. -/
theorem C3_matrix_elem_bracket {N : ℕ} (vec1 vec2 : StateVec N) (obs : Observable N)
    (hnd : obs.wires.Nodup) :
    ReversibleTape._matrix_elem vec1 obs vec2 = innerProd vec1 (applyObs obs vec2) :=
  matrix_elem_spec vec1 vec2 obs hnd

/-- Witness for C3 at concrete one-wire inputs. -/
theorem C3_witness :
    obsZ.wires.Nodup ∧
      ReversibleTape._matrix_elem sv1 obsZ sv2 = innerProd sv1 (applyObs obsZ sv2) :=
  ⟨by decide, C3_matrix_elem_bracket sv1 sv2 obsZ (by decide)⟩

/-- C10: `analytic_pd` never mutates the source tape's operation queue or
the inverse flags of its operations: whatever the inputs, the tape it
leaves behind has the same queue up to parameter values — same names,
wires, inverse flags and grad-method tags in the same order — and the same
measurements and trainable set.  The reversed replay segment is built from
inverted fresh copies, inside a fresh `QuantumTape`. -/
theorem C10_source_queue_preserved {N : ℕ}
    (applyOp : Operation N → StateVec N → StateVec N)
    (generator : Operation N → Option (String × ℚ))
    (decomposition : Operation N → List (Operation N))
    (t : QuantumTape N) (idx : ℕ) (d : Device N) (ps : List ℚ) :
    ((ReversibleTape.analytic_pd applyOp generator decomposition t idx d ps).tape.operations.map
        stripParams = t.operations.map stripParams) ∧
    ((ReversibleTape.analytic_pd applyOp generator decomposition t idx d ps).tape.measurements =
        t.measurements) ∧
    ((ReversibleTape.analytic_pd applyOp generator decomposition t idx d ps).tape.trainable_params =
        t.trainable_params) := by
  unfold ReversibleTape.analytic_pd
  split
  · exact ⟨rfl, rfl, rfl⟩
  · split
    · exact ⟨rfl, rfl, rfl⟩
    · split
      · exact ⟨rfl, rfl, rfl⟩
      · split
        · rw [ReversibleTape.analytic_pd_core_tape]
          exact ⟨QuantumTape.set_parameters_strip _ _, rfl, rfl⟩
        · exact ⟨rfl, rfl, rfl⟩

/-- C7: with a valid trainable index, `analytic_pd` raises a
`ValueError` naming the offending kind — for a Variance/Probability
measurement, or for an owning operation outside RX/RY/RZ/Rot — and in
either case it returns before any device execution (zero executions) or
any tape/device state mutation (both returned unchanged). -/
theorem C7_validation_errors {N : ℕ}
    (applyOp : Operation N → StateVec N → StateVec N)
    (generator : Operation N → Option (String × ℚ))
    (decomposition : Operation N → List (Operation N))
    (t : QuantumTape N) (idx op_idx p_idx : ℕ) (d : Device N) (ps : List ℚ)
    (op : Operation N)
    (howner : QuantumTape.owner t idx = some (op_idx, p_idx))
    (hop : t.operations.get? op_idx = some op) :
    (∀ m, t.measurements.find? badMeasurement = some m →
        ReversibleTape.analytic_pd applyOp generator decomposition t idx d ps =
          ⟨Except.error (PDError.UnsupportedReturnType m.return_type), t, d, 0, []⟩) ∧
    (t.measurements.find? badMeasurement = none →
      op.name ∉ ["RX", "RY", "RZ", "Rot"] →
        ReversibleTape.analytic_pd applyOp generator decomposition t idx d ps =
          ⟨Except.error (PDError.UnsupportedOperation op.name), t, d, 0, []⟩) := by
  rw [List.get?_eq_getElem?] at hop
  constructor
  · intro m hm
    simp [ReversibleTape.analytic_pd, howner, hop, hm]
  · intro hnone hname
    have hname' : ¬(op.name = "RX" ∨ op.name = "RY" ∨ op.name = "RZ" ∨ op.name = "Rot") := by
      simpa using hname
    simp [ReversibleTape.analytic_pd, howner, hop, hnone, hname']

/-- Witness for C7: a Variance tape and a non-whitelisted gate tape, both
rejected without execution or mutation. -/
theorem C7_witness :
    (ReversibleTape.analytic_pd applyId genTable decompTable tapeVar 0 dev0 [1/2] =
      ⟨Except.error (PDError.UnsupportedReturnType ReturnType.Variance), tapeVar, dev0, 0, []⟩) ∧
    (ReversibleTape.analytic_pd applyId genTable decompTable tapeBadOp 0 dev0 [1] =
      ⟨Except.error (PDError.UnsupportedOperation "PhaseShift"), tapeBadOp, dev0, 0, []⟩) :=
  ⟨(C7_validation_errors applyId genTable decompTable tapeVar 0 0 0 dev0 [1/2] opRX1
      (by rfl) (by rfl)).1 ⟨ReturnType.Variance, obsZ⟩ (by rfl),
   (C7_validation_errors applyId genTable decompTable tapeBadOp 0 0 0 dev0 [1]
      ⟨"PhaseShift", [w0], [1], false, some "A"⟩ (by rfl) (by rfl)).2 (by rfl) (by decide)⟩

/-- When both validation checks pass, `analytic_pd` runs the replay core. -/
theorem analytic_pd_checks_pass {N : ℕ}
    (applyOp : Operation N → StateVec N → StateVec N)
    (generator : Operation N → Option (String × ℚ))
    (decomposition : Operation N → List (Operation N))
    (t : QuantumTape N) (idx op_idx p_idx : ℕ) (d : Device N) (ps : List ℚ)
    (op : Operation N)
    (howner : QuantumTape.owner t idx = some (op_idx, p_idx))
    (hop : t.operations.get? op_idx = some op)
    (hmeas : t.measurements.find? badMeasurement = none)
    (hwl : op.name = "RX" ∨ op.name = "RY" ∨ op.name = "RZ" ∨ op.name = "Rot") :
    ReversibleTape.analytic_pd applyOp generator decomposition t idx d ps =
      ReversibleTape.analytic_pd_core applyOp generator decomposition t op_idx p_idx d ps := by
  simp only [ReversibleTape.analytic_pd, howner, hop, hmeas]
  split
  · rfl
  · rename_i hcond
    exact absurd (by simpa using hwl) hcond

/-- Structurally equal operation lists have structurally equal entries. -/
theorem strip_get {N : ℕ} {l1 l2 : List (Operation N)}
    (h : l1.map stripParams = l2.map stripParams) {i : ℕ} {op1 op2 : Operation N}
    (h1 : l1.get? i = some op1) (h2 : l2.get? i = some op2) :
    stripParams op1 = stripParams op2 := by
  have hh := congrArg (fun l => l.get? i) h
  simp only [List.get?_eq_getElem?, List.getElem?_map] at hh
  rw [List.get?_eq_getElem?] at h1 h2
  rw [h1, h2] at hh
  simp only [Option.map_some'] at hh
  exact Option.some.inj hh

/-- C1 counterexample: on a tape whose only gate is a three-parameter
`Rot` (no operation queued after it), the replay circuit built for the
first trainable parameter has five operations, while the claim's formula —
inverted suffix reversed, one bare generator, suffix — forces a length of
`2 * |suffix| + 1 = 1` because the suffix of operations queued after the
owning `Rot` is empty: the remaining decomposition steps also enter the
replay circuit. -/
theorem C1_counterexample :
    (ReversibleTape.analytic_pd applyId genTable decompTable tapeRot 0 dev0
        [1, 2, 3]).diffOps.length = 5 ∧
    (tapeRot.operations.drop (0 + 1)).length = 0 ∧
    (ReversibleTape.analytic_pd applyId genTable decompTable tapeRot 0 dev0
        [1, 2, 3]).diffOps.length ≠
      2 * (tapeRot.operations.drop (0 + 1)).length + 1 := by
  decide

/-- C1 (amended): for every trainable parameter whose owning operation is a
single-parameter rotation (RX, RY or RZ — not Rot), `analytic_pd` builds
the replay circuit's operation list as exactly the inverses of the suffix
operations (every operation queued after the owning operation, at the bound
parameter values) taken in reverse order, followed by the owning
operation's bare generator applied to the owning operation's wires,
followed by the suffix operations in their original order. -/
theorem C1_replay_structure {N : ℕ}
    (applyOp : Operation N → StateVec N → StateVec N)
    (generator : Operation N → Option (String × ℚ))
    (decomposition : Operation N → List (Operation N))
    (t : QuantumTape N) (idx op_idx p_idx : ℕ) (d : Device N) (ps : List ℚ)
    (op op2 : Operation N) (g : String × ℚ)
    (howner : QuantumTape.owner t idx = some (op_idx, p_idx))
    (hop : t.operations.get? op_idx = some op)
    (hmeas : t.measurements.find? badMeasurement = none)
    (hname : op.name = "RX" ∨ op.name = "RY" ∨ op.name = "RZ")
    (hop2 : (t.set_parameters ps).operations.get? op_idx = some op2)
    (hgen : generator op2 = some g) :
    (ReversibleTape.analytic_pd applyOp generator decomposition t idx d ps).diffOps =
      (((t.set_parameters ps).operations.drop (op_idx + 1)).map invOp).reverse ++
        [mkGen g.1 op2.wires] ++
        (t.set_parameters ps).operations.drop (op_idx + 1) := by
  have hwl : op.name = "RX" ∨ op.name = "RY" ∨ op.name = "RZ" ∨ op.name = "Rot" := by
    rcases hname with h | h | h
    · exact Or.inl h
    · exact Or.inr (Or.inl h)
    · exact Or.inr (Or.inr (Or.inl h))
  rw [analytic_pd_checks_pass applyOp generator decomposition t idx op_idx p_idx d ps op
    howner hop hmeas hwl]
  unfold ReversibleTape.analytic_pd_core
  dsimp only
  have hop2' : (QuantumTape.set_parameters
      { t with state := some (ReversibleTape.cachedState applyOp t ps d) } ps).operations.get?
        op_idx = some op2 := hop2
  rw [hop2']
  simp only [Option.getD_some]
  have hstrip := strip_get (QuantumTape.set_parameters_strip t ps) hop2 hop
  have hname2 : op2.name = op.name := congrArg (fun q => q.1) hstrip
  have hrot : ¬ op2.name = "Rot" := by
    rw [hname2]
    rcases hname with h | h | h <;> simp [h]
  unfold genAndBetween
  rw [if_neg hrot, hgen]
  dsimp only [Option.map_some']
  rw [List.map_reverse]
  rfl

/-- Witness for the amended C1 on a two-gate tape: differentiating the
first `RX` yields inverse-of-`RY`, `PauliX`, `RY`. -/
theorem C1_witness :
    (ReversibleTape.analytic_pd applyId genTable decompTable tapeRXRY 0 dev0
        [1/2, 3/5]).diffOps =
      (((tapeRXRY.set_parameters [1/2, 3/5]).operations.drop (0 + 1)).map invOp).reverse ++
        [mkGen "PauliX" opRX1.wires] ++
        (tapeRXRY.set_parameters [1/2, 3/5]).operations.drop (0 + 1) :=
  C1_replay_structure applyId genTable decompTable tapeRXRY 0 0 0 dev0 [1/2, 3/5]
    opRX1 opRX1 ("PauliX", -(1/2)) (by rfl) (by rfl) (by rfl) (Or.inl rfl) (by rfl) (by rfl)

/-- C4: for a trainable parameter owned by a multi-parameter `Rot` with
local index `p_idx`, `analytic_pd` takes the generator and multiplier from
the `p_idx`-th operation of Rot's decomposition, and the replay suffix is
the remaining decomposition steps after `p_idx` followed by all operations
queued after the `Rot`; for single-parameter operations the generator and
multiplier come directly from the operation itself and the suffix is just
the operations queued after it.  The multiplier's use is visible in the
returned vector, the generator's in the replay circuit's middle gate. -/
theorem C4_generator_selection {N : ℕ}
    (applyOp : Operation N → StateVec N → StateVec N)
    (generator : Operation N → Option (String × ℚ))
    (decomposition : Operation N → List (Operation N))
    (t : QuantumTape N) (idx op_idx p_idx : ℕ) (d : Device N) (ps : List ℚ)
    (op op2 : Operation N)
    (howner : QuantumTape.owner t idx = some (op_idx, p_idx))
    (hop : t.operations.get? op_idx = some op)
    (hmeas : t.measurements.find? badMeasurement = none)
    (hop2 : (t.set_parameters ps).operations.get? op_idx = some op2) :
    (op.name = "Rot" →
      ∀ dop g, (decomposition op2).get? p_idx = some dop → generator dop = some g →
        (ReversibleTape.analytic_pd applyOp generator decomposition t idx d ps).diffOps =
          ((((decomposition op2).drop (p_idx + 1) ++
              (t.set_parameters ps).operations.drop (op_idx + 1)).map invOp).reverse ++
            [mkGen g.1 op2.wires] ++
            ((decomposition op2).drop (p_idx + 1) ++
              (t.set_parameters ps).operations.drop (op_idx + 1))) ∧
        (ReversibleTape.analytic_pd applyOp generator decomposition t idx d ps).out =
          Except.ok (t.measurements.map (fun m =>
            2 * g.2 * (ReversibleTape._matrix_elem
              (applyOps applyOp
                (ReversibleTape.analytic_pd applyOp generator decomposition t idx d ps).diffOps
                (ReversibleTape.cachedState applyOp t ps d))
              m.obs (ReversibleTape.cachedState applyOp t ps d)).im))) ∧
    ((op.name = "RX" ∨ op.name = "RY" ∨ op.name = "RZ") →
      ∀ g, generator op2 = some g →
        (ReversibleTape.analytic_pd applyOp generator decomposition t idx d ps).diffOps =
          ((((t.set_parameters ps).operations.drop (op_idx + 1)).map invOp).reverse ++
            [mkGen g.1 op2.wires] ++
            (t.set_parameters ps).operations.drop (op_idx + 1)) ∧
        (ReversibleTape.analytic_pd applyOp generator decomposition t idx d ps).out =
          Except.ok (t.measurements.map (fun m =>
            2 * g.2 * (ReversibleTape._matrix_elem
              (applyOps applyOp
                (ReversibleTape.analytic_pd applyOp generator decomposition t idx d ps).diffOps
                (ReversibleTape.cachedState applyOp t ps d))
              m.obs (ReversibleTape.cachedState applyOp t ps d)).im))) := by
  have hstrip := strip_get (QuantumTape.set_parameters_strip t ps) hop2 hop
  have hname2 : op2.name = op.name := congrArg (fun q => q.1) hstrip
  constructor
  · intro hrot dop g hdop hgendop
    have hwl : op.name = "RX" ∨ op.name = "RY" ∨ op.name = "RZ" ∨ op.name = "Rot" :=
      Or.inr (Or.inr (Or.inr hrot))
    rw [analytic_pd_checks_pass applyOp generator decomposition t idx op_idx p_idx d ps op
      howner hop hmeas hwl]
    unfold ReversibleTape.analytic_pd_core
    dsimp only
    have hop2' : (QuantumTape.set_parameters
        { t with state := some (ReversibleTape.cachedState applyOp t ps d) } ps).operations.get?
          op_idx = some op2 := hop2
    rw [hop2']
    simp only [Option.getD_some]
    have hrot2 : op2.name = "Rot" := by rw [hname2, hrot]
    unfold genAndBetween
    rw [if_pos hrot2, hdop]
    dsimp only
    rw [hgendop]
    dsimp only [Option.map_some']
    constructor
    · simp only [List.map_reverse]
      rfl
    · rfl
  · intro hname g hgen
    have hwl : op.name = "RX" ∨ op.name = "RY" ∨ op.name = "RZ" ∨ op.name = "Rot" := by
      rcases hname with h | h | h
      · exact Or.inl h
      · exact Or.inr (Or.inl h)
      · exact Or.inr (Or.inr (Or.inl h))
    rw [analytic_pd_checks_pass applyOp generator decomposition t idx op_idx p_idx d ps op
      howner hop hmeas hwl]
    unfold ReversibleTape.analytic_pd_core
    dsimp only
    have hop2' : (QuantumTape.set_parameters
        { t with state := some (ReversibleTape.cachedState applyOp t ps d) } ps).operations.get?
          op_idx = some op2 := hop2
    rw [hop2']
    simp only [Option.getD_some]
    have hrot : ¬ op2.name = "Rot" := by
      rw [hname2]
      rcases hname with h | h | h <;> simp [h]
    unfold genAndBetween
    rw [if_neg hrot, hgen]
    dsimp only [Option.map_some']
    constructor
    · simp only [List.map_reverse]
      rfl
    · rfl

/-- Witness for C4: the `Rot` branch on the concrete `Rot(1,2,3)` tape
(generator from the first decomposition step, suffix = remaining
decomposition), and the single-parameter branch on the `RX` tape. -/
theorem C4_witness :
    ((ReversibleTape.analytic_pd applyId genTable decompTable tapeRot 0 dev0
        [1, 2, 3]).diffOps =
      ((((decompTable opRot).drop (0 + 1) ++
          (tapeRot.set_parameters [1, 2, 3]).operations.drop (0 + 1)).map invOp).reverse ++
        [mkGen "PauliZ" opRot.wires] ++
        ((decompTable opRot).drop (0 + 1) ++
          (tapeRot.set_parameters [1, 2, 3]).operations.drop (0 + 1)))) ∧
    ((ReversibleTape.analytic_pd applyId genTable decompTable tapeRX 0 dev0
        [1/2]).diffOps =
      ((((tapeRX.set_parameters [1/2]).operations.drop (0 + 1)).map invOp).reverse ++
        [mkGen "PauliX" opRX1.wires] ++
        (tapeRX.set_parameters [1/2]).operations.drop (0 + 1))) :=
  ⟨((C4_generator_selection applyId genTable decompTable tapeRot 0 0 0 dev0 [1, 2, 3]
      opRot opRot (by rfl) (by rfl) (by rfl) (by rfl)).1 rfl
      ⟨"RZ", [w0], [1], false, some "A"⟩ ("PauliZ", -(1/2)) (by rfl) (by rfl)).1,
   ((C4_generator_selection applyId genTable decompTable tapeRX 0 0 0 dev0 [1/2]
      opRX1 opRX1 (by rfl) (by rfl) (by rfl) (by rfl)).2 (Or.inl rfl)
      ("PauliX", -(1/2)) (by rfl)).1⟩

/-- C2: on the success path, the vector `analytic_pd` returns has one entry
per declared observable in declared order, and each entry equals
`2 × multiplier × imag` of the contraction of the perturbed state (the
cached state evolved through the replay circuit) with that observable and
the cached pre-measurement state. -/
theorem C2_derivative_values {N : ℕ}
    (applyOp : Operation N → StateVec N → StateVec N)
    (generator : Operation N → Option (String × ℚ))
    (decomposition : Operation N → List (Operation N))
    (t : QuantumTape N) (idx op_idx p_idx : ℕ) (d : Device N) (ps : List ℚ)
    (op op2 : Operation N) (gname : String) (mult : ℚ) (between : List (Operation N))
    (howner : QuantumTape.owner t idx = some (op_idx, p_idx))
    (hop : t.operations.get? op_idx = some op)
    (hmeas : t.measurements.find? badMeasurement = none)
    (hwl : op.name = "RX" ∨ op.name = "RY" ∨ op.name = "RZ" ∨ op.name = "Rot")
    (hop2 : (t.set_parameters ps).operations.get? op_idx = some op2)
    (hg : genAndBetween generator decomposition op2 p_idx
        ((t.set_parameters ps).operations.drop (op_idx + 1)) =
      some (gname, mult, between)) :
    (ReversibleTape.analytic_pd applyOp generator decomposition t idx d ps).out =
      Except.ok (t.measurements.map (fun m =>
        2 * mult * (ReversibleTape._matrix_elem
          (applyOps applyOp
            (ReversibleTape.analytic_pd applyOp generator decomposition t idx d ps).diffOps
            (ReversibleTape.cachedState applyOp t ps d))
          m.obs (ReversibleTape.cachedState applyOp t ps d)).im)) ∧
    (∀ vals,
      (ReversibleTape.analytic_pd applyOp generator decomposition t idx d ps).out =
        Except.ok vals → vals.length = t.measurements.length) := by
  rw [analytic_pd_checks_pass applyOp generator decomposition t idx op_idx p_idx d ps op
    howner hop hmeas hwl]
  unfold ReversibleTape.analytic_pd_core
  dsimp only
  have hop2' : (QuantumTape.set_parameters
      { t with state := some (ReversibleTape.cachedState applyOp t ps d) } ps).operations.get?
        op_idx = some op2 := hop2
  rw [hop2']
  simp only [Option.getD_some]
  have hg' : genAndBetween generator decomposition op2 p_idx
      (List.drop (op_idx + 1)
        (QuantumTape.set_parameters
          { t with state := some (ReversibleTape.cachedState applyOp t ps d) } ps).operations) =
      some (gname, mult, between) := hg
  rw [hg']
  dsimp only
  constructor
  · rfl
  · intro vals hvals
    have hv : vals = List.map (fun m =>
        2 * mult * (ReversibleTape._matrix_elem
          (applyOps applyOp
            (List.map invOp between.reverse ++ [mkGen gname op2.wires] ++ between)
            (ReversibleTape.cachedState applyOp t ps d))
          m.obs (ReversibleTape.cachedState applyOp t ps d)).im)
        (QuantumTape.set_parameters
          { t with state := some (ReversibleTape.cachedState applyOp t ps d) } ps).measurements :=
      (Except.ok.inj hvals).symm
    rw [hv]
    simp only [List.length_map]
    rfl

/-- Witness for C2 on the concrete one-wire `RX` tape. -/
theorem C2_witness :
    (ReversibleTape.analytic_pd applyId genTable decompTable tapeRX 0 dev0 [1/2]).out =
      Except.ok (tapeRX.measurements.map (fun m =>
        2 * (-(1/2)) * (ReversibleTape._matrix_elem
          (applyOps applyId
            (ReversibleTape.analytic_pd applyId genTable decompTable tapeRX 0 dev0 [1/2]).diffOps
            (ReversibleTape.cachedState applyId tapeRX [1/2] dev0))
          m.obs (ReversibleTape.cachedState applyId tapeRX [1/2] dev0)).im)) ∧
    ∀ vals,
      (ReversibleTape.analytic_pd applyId genTable decompTable tapeRX 0 dev0 [1/2]).out =
        Except.ok vals → vals.length = tapeRX.measurements.length :=
  C2_derivative_values applyId genTable decompTable tapeRX 0 0 0 dev0 [1/2]
    opRX1 opRX1 "PauliX" (-(1/2)) [] (by rfl) (by rfl) (by rfl) (Or.inl rfl)
    (by rfl) (by rfl)

/-- C6: whenever `analytic_pd` returns a value, the device's cached
pre-rotated (pre-measurement) state has been restored to the cached
unperturbed pre-measurement statevector (the tape's `_state` cache), so the
next trainable parameter's replay starts from the unperturbed cache; in
particular, when a cache was already present on entry, the device is left
pre-rotated at exactly that cached state. -/
theorem C6_cache_restored {N : ℕ}
    (applyOp : Operation N → StateVec N → StateVec N)
    (generator : Operation N → Option (String × ℚ))
    (decomposition : Operation N → List (Operation N))
    (t : QuantumTape N) (idx : ℕ) (d : Device N) (ps : List ℚ) :
    ∀ vals,
      (ReversibleTape.analytic_pd applyOp generator decomposition t idx d ps).out =
        Except.ok vals →
      ((ReversibleTape.analytic_pd applyOp generator decomposition t idx d
          ps).device.pre_rotated_state =
        (ReversibleTape.analytic_pd applyOp generator decomposition t idx d ps).tape.state ∧
      ∀ s, t.state = some s →
        (ReversibleTape.analytic_pd applyOp generator decomposition t idx d
            ps).device.pre_rotated_state = some s) := by
  intro vals hok
  cases howner : QuantumTape.owner t idx with
  | none =>
    simp only [ReversibleTape.analytic_pd, howner] at hok
    exact Except.noConfusion hok
  | some q =>
    obtain ⟨op_idx, p_idx⟩ := q
    cases hop : t.operations.get? op_idx with
    | none =>
      simp only [ReversibleTape.analytic_pd, howner, hop] at hok
      exact Except.noConfusion hok
    | some op =>
      cases hmeas : t.measurements.find? badMeasurement with
      | some m =>
        simp only [ReversibleTape.analytic_pd, howner, hop, hmeas] at hok
        exact Except.noConfusion hok
      | none =>
        by_cases hwl : op.name ∈ ["RX", "RY", "RZ", "Rot"]
        · have hred := analytic_pd_checks_pass applyOp generator decomposition t idx op_idx
            p_idx d ps op howner hop hmeas (by simpa using hwl)
          rw [hred] at hok ⊢
          unfold ReversibleTape.analytic_pd_core at hok ⊢
          dsimp only at hok ⊢
          split at hok
          · exact Except.noConfusion hok
          · rename_i heq
            simp only [heq]
            refine ⟨by simp [QuantumTape.set_parameters_state], ?_⟩
            intro s hs
            simp [ReversibleTape.cachedState, hs]
        · simp only [ReversibleTape.analytic_pd, howner, hop, hmeas] at hok
          rw [if_neg hwl] at hok
          exact Except.noConfusion hok

/-- Witness for C6 on the concrete one-wire `RX` tape with a pre-seeded
cache. -/
theorem C6_witness :
    (ReversibleTape.analytic_pd applyId genTable decompTable
        { tapeRX with state := some sv1 } 0 dev0 [1/2]).device.pre_rotated_state =
      (ReversibleTape.analytic_pd applyId genTable decompTable
        { tapeRX with state := some sv1 } 0 dev0 [1/2]).tape.state ∧
    (ReversibleTape.analytic_pd applyId genTable decompTable
        { tapeRX with state := some sv1 } 0 dev0 [1/2]).device.pre_rotated_state = some sv1 := by
  have h := C6_cache_restored applyId genTable decompTable
    { tapeRX with state := some sv1 } 0 dev0 [1/2]
    ((ReversibleTape.analytic_pd applyId genTable decompTable
        { tapeRX with state := some sv1 } 0 dev0 [1/2]).out.toOption.getD [])
    (by rfl)
  exact ⟨h.1, h.2 sv1 rfl⟩

/-- With a warm cache, `analytic_pd` performs no full-tape execution and
keeps the cached state. -/
theorem analytic_pd_cached {N : ℕ}
    (applyOp : Operation N → StateVec N → StateVec N)
    (generator : Operation N → Option (String × ℚ))
    (decomposition : Operation N → List (Operation N))
    (t : QuantumTape N) (idx : ℕ) (d : Device N) (ps : List ℚ) (s : StateVec N)
    (hs : t.state = some s) :
    (ReversibleTape.analytic_pd applyOp generator decomposition t idx d ps).execs = 0 ∧
    (ReversibleTape.analytic_pd applyOp generator decomposition t idx d ps).tape.state =
      some s := by
  unfold ReversibleTape.analytic_pd
  split
  · exact ⟨rfl, hs⟩
  · split
    · exact ⟨rfl, hs⟩
    · split
      · exact ⟨rfl, hs⟩
      · split
        · constructor
          · rw [ReversibleTape.analytic_pd_core_execs]
            simp [hs]
          · rw [ReversibleTape.analytic_pd_core_tape]
            simp [QuantumTape.set_parameters_state, ReversibleTape.cachedState, hs]
        · exact ⟨rfl, hs⟩

/-- One `analytic_pd` call performs at most one full-tape execution. -/
theorem analytic_pd_execs_le_one {N : ℕ}
    (applyOp : Operation N → StateVec N → StateVec N)
    (generator : Operation N → Option (String × ℚ))
    (decomposition : Operation N → List (Operation N))
    (t : QuantumTape N) (idx : ℕ) (d : Device N) (ps : List ℚ) :
    (ReversibleTape.analytic_pd applyOp generator decomposition t idx d ps).execs ≤ 1 := by
  unfold ReversibleTape.analytic_pd
  split
  · exact Nat.zero_le 1
  · split
    · exact Nat.zero_le 1
    · split
      · exact Nat.zero_le 1
      · split
        · rw [ReversibleTape.analytic_pd_core_execs]
          cases t.state <;> simp
        · exact Nat.zero_le 1

/-- A successful `analytic_pd` call always leaves a cache behind. -/
theorem analytic_pd_state_some {N : ℕ}
    (applyOp : Operation N → StateVec N → StateVec N)
    (generator : Operation N → Option (String × ℚ))
    (decomposition : Operation N → List (Operation N))
    (t : QuantumTape N) (idx : ℕ) (d : Device N) (ps : List ℚ) (vals : List ℚ)
    (hok : (ReversibleTape.analytic_pd applyOp generator decomposition t idx d ps).out =
      Except.ok vals) :
    (ReversibleTape.analytic_pd applyOp generator decomposition t idx d ps).tape.state =
      some (ReversibleTape.cachedState applyOp t ps d) := by
  unfold ReversibleTape.analytic_pd at hok ⊢
  split at hok
  · exact Except.noConfusion hok
  · split at hok
    · exact Except.noConfusion hok
    · split at hok
      · exact Except.noConfusion hok
      · split at hok
        · rename_i hwl
          rw [if_pos hwl, ReversibleTape.analytic_pd_core_tape]
          simp [QuantumTape.set_parameters_state]
        · rename_i hwl
          rw [if_neg hwl]
          exact Except.noConfusion hok

/-- With a warm cache, a whole jacobian row loop performs no full-tape
execution. -/
theorem jacobianRows_cached {N : ℕ}
    (applyOp : Operation N → StateVec N → StateVec N)
    (generator : Operation N → Option (String × ℚ))
    (decomposition : Operation N → List (Operation N))
    (idxs : List ℕ) (t : QuantumTape N) (d : Device N) (ps : List ℚ) (s : StateVec N)
    (hs : t.state = some s) :
    (jacobianRows applyOp generator decomposition idxs t d ps).2.2.2 = 0 := by
  induction idxs generalizing t d with
  | nil => rfl
  | cons i rest ih =>
    obtain ⟨hexecs, hstate⟩ :=
      analytic_pd_cached applyOp generator decomposition t i d ps s hs
    unfold jacobianRows
    dsimp only
    split
    · simpa using hexecs
    · have hrec := ih (ReversibleTape.analytic_pd applyOp generator decomposition t i d ps).tape
        (ReversibleTape.analytic_pd applyOp generator decomposition t i d ps).device hstate
    
      split <;> simp [hexecs, hrec]

/-- A whole jacobian row loop performs at most one full-tape execution:
the first analytic call may fill the cache, every later call reuses it. -/
theorem jacobianRows_execs_le_one {N : ℕ}
    (applyOp : Operation N → StateVec N → StateVec N)
    (generator : Operation N → Option (String × ℚ))
    (decomposition : Operation N → List (Operation N))
    (idxs : List ℕ) (t : QuantumTape N) (d : Device N) (ps : List ℚ) :
    (jacobianRows applyOp generator decomposition idxs t d ps).2.2.2 ≤ 1 := by
  induction idxs generalizing t d with
  | nil => exact Nat.zero_le 1
  | cons i rest ih =>
    unfold jacobianRows
    dsimp only
    split
    · simpa using analytic_pd_execs_le_one applyOp generator decomposition t i d ps
    · rename_i row hout
      have hstate := analytic_pd_state_some applyOp generator decomposition t i d ps row hout
      have hrec := jacobianRows_cached applyOp generator decomposition rest
        (ReversibleTape.analytic_pd applyOp generator decomposition t i d ps).tape
        (ReversibleTape.analytic_pd applyOp generator decomposition t i d ps).device ps
        (ReversibleTape.cachedState applyOp t ps d) hstate
      have hone := analytic_pd_execs_le_one applyOp generator decomposition t i d ps
      split <;> simp [hrec] <;> exact hone

/-- The jacobian call reports exactly the loop's execution count. -/
theorem jacobianA_execs {N : ℕ}
    (applyOp : Operation N → StateVec N → StateVec N)
    (generator : Operation N → Option (String × ℚ))
    (decomposition : Operation N → List (Operation N))
    (t : QuantumTape N) (d : Device N) (params : Option (List ℚ)) :
    (QuantumTape.jacobianA applyOp generator decomposition t d params).execs =
      (jacobianRows applyOp generator decomposition
        (List.range t.trainable_params.length) t d
        (params.getD t.get_parameters)).2.2.2 := by
  unfold QuantumTape.jacobianA
  dsimp only
  split <;> rfl

/-- C5: every `ReversibleTape.jacobian` call clears the cached
pre-measurement state before delegating to the base jacobian; within the
call the full tape is executed at most once; `analytic_pd` performs no
full-tape execution when the cache is warm (and then keeps the cache), and
when it does execute (cold cache) it stores the device's pre-rotated
statevector as the new cache, so every later trainable parameter in the
same call reuses it. -/
theorem C5_state_cached_once {N : ℕ}
    (applyOp : Operation N → StateVec N → StateVec N)
    (generator : Operation N → Option (String × ℚ))
    (decomposition : Operation N → List (Operation N))
    (t : QuantumTape N) (d : Device N) (params : Option (List ℚ)) :
    (ReversibleTape.jacobian applyOp generator decomposition t d params =
      QuantumTape.jacobianA applyOp generator decomposition { t with state := none } d params) ∧
    (ReversibleTape.jacobian applyOp generator decomposition t d params).execs ≤ 1 ∧
    (∀ (t' : QuantumTape N) (i : ℕ) (d' : Device N) (ps : List ℚ) (s : StateVec N),
      t'.state = some s →
        (ReversibleTape.analytic_pd applyOp generator decomposition t' i d' ps).execs = 0 ∧
        (ReversibleTape.analytic_pd applyOp generator decomposition t' i d' ps).tape.state =
          some s) ∧
    (∀ (t' : QuantumTape N) (i : ℕ) (d' : Device N) (ps : List ℚ),
      t'.state = none →
        (ReversibleTape.analytic_pd applyOp generator decomposition t' i d' ps).execs = 1 →
        (ReversibleTape.analytic_pd applyOp generator decomposition t' i d' ps).tape.state =
          (QuantumTape.execute_device applyOp t' ps d').pre_rotated_state) := by
  refine ⟨rfl, ?_, ?_, ?_⟩
  · unfold ReversibleTape.jacobian
    rw [jacobianA_execs]
    exact jacobianRows_execs_le_one applyOp generator decomposition _ _ _ _
  · intro t' i d' ps s hs
    exact analytic_pd_cached applyOp generator decomposition t' i d' ps s hs
  · intro t' i d' ps hnone hexec
    unfold ReversibleTape.analytic_pd at hexec ⊢
    split at hexec
    · simp at hexec
    · split at hexec
      · simp at hexec
      · split at hexec
        · simp at hexec
        · split at hexec
          · rename_i hwl
            rw [if_pos hwl, ReversibleTape.analytic_pd_core_tape]
            simp only [QuantumTape.set_parameters_state]
            simp [ReversibleTape.cachedState, hnone, QuantumTape.execute_device]
          · simp at hexec

/-- Witness for C5 on the concrete one-wire `RX` tape: a full jacobian call
with a stale cache executes the tape exactly once overall, and a warmed
`analytic_pd` call executes zero times. -/
theorem C5_witness :
    (ReversibleTape.jacobian applyId genTable decompTable
        { tapeRX with state := some sv1 } dev0 (some [1/2])).execs ≤ 1 ∧
    (ReversibleTape.analytic_pd applyId genTable decompTable
        { tapeRX with state := some sv1 } 0 dev0 [1/2]).execs = 0 ∧
    (ReversibleTape.analytic_pd applyId genTable decompTable
        { tapeRX with state := some sv1 } 0 dev0 [1/2]).tape.state = some sv1 := by
  have h := C5_state_cached_once applyId genTable decompTable
    { tapeRX with state := some sv1 } dev0 (some [1/2])
  have h2 := h.2.2.1 { tapeRX with state := some sv1 } 0 dev0 [1/2] sv1 rfl
  exact ⟨h.2.1, h2.1, h2.2⟩

/-- C8 counterexample: in the src test scenario (`RX` on wire 0, `RY` on
wire 1, expectation of Pauli-Y on wire 0), the owning `RX` carries an
analytic gradient rule and reaches the observable, yet the base tape's
`_grad_method` returns its default `"F"`, not `"A"` — the claimed
trichotomy does not hold for the base tape. -/
theorem C8_counterexample :
    QuantumTape._grad_method tapeInd 0 true "F" = some "F" ∧
    (tapeInd.operations.get? 0).map (fun o => o.grad_method) = some (some "A") ∧
    reachesObservable tapeInd 0 = true ∧
    QuantumTape._grad_method tapeInd 0 true "F" ≠ some "A" := by
  decide

/-- C8 (amended): gradient-method inference returns `none` when the owning
operation carries no gradient rule at all, `"0"` when graph-based
reachability shows no path from the owning operation to any observable
(with `use_graph` on), and otherwise the caller's default method — which is
`"A"` for `ReversibleTape` and `"F"` for the base tape;
`ReversibleTape._grad_method` coincides with the base method. -/
theorem C8_grad_method {N : ℕ} (t : QuantumTape N) (idx op_idx p : ℕ)
    (op : Operation N) (use_graph : Bool) (dm : String)
    (hinfo : t.par_info idx = some (op_idx, p))
    (hop : t.operations.get? op_idx = some op) :
    (op.grad_method = none → QuantumTape._grad_method t idx use_graph dm = none) ∧
    (op.grad_method ≠ none → use_graph = true → reachesObservable t op_idx = false →
      QuantumTape._grad_method t idx use_graph dm = some "0") ∧
    (op.grad_method ≠ none →
      (use_graph = false ∨ reachesObservable t op_idx = true) →
      QuantumTape._grad_method t idx use_graph dm = some dm) ∧
    ReversibleTape._grad_method t idx use_graph dm =
      QuantumTape._grad_method t idx use_graph dm := by
  rw [List.get?_eq_getElem?] at hop
  refine ⟨?_, ?_, ?_, rfl⟩
  · intro hnone
    simp [QuantumTape._grad_method, hinfo, hop, hnone]
  · intro hsome hug hreach
    obtain ⟨g, hg⟩ := Option.ne_none_iff_exists'.mp hsome
    simp [QuantumTape._grad_method, hinfo, hop, hg, hug, hreach]
  · intro hsome hcase
    obtain ⟨g, hg⟩ := Option.ne_none_iff_exists'.mp hsome
    rcases hcase with h | h <;> simp [QuantumTape._grad_method, hinfo, hop, hg, h]

/-- Witness for the amended C8 on the concrete independence scenario:
`RY` on wire 1 is independent of the observable (tag `"0"`), `RX` on wire 0
gets the reversible default `"A"`, and the reversible method coincides with
the base method. -/
theorem C8_witness :
    QuantumTape._grad_method tapeInd 1 true "F" = some "0" ∧
    QuantumTape._grad_method tapeInd 0 true "A" = some "A" ∧
    ReversibleTape._grad_method tapeInd 0 true "A" =
      QuantumTape._grad_method tapeInd 0 true "A" := by
  have h1 := C8_grad_method tapeInd 1 1 0
    ⟨"RY", [v1], [-(654/1000)], false, some "A"⟩ true "F" (by decide) (by rfl)
  have h0 := C8_grad_method tapeInd 0 0 0
    ⟨"RX", [v0], [543/1000], false, some "A"⟩ true "A" (by decide) (by rfl)
  exact ⟨h1.2.1 (by decide) rfl (by decide),
    h0.2.2.1 (by decide) (Or.inr (by decide)), h0.2.2.2⟩

/-- One `analytic_pd` call preserves the trainable set and the total
parameter count of the tape it returns. -/
theorem analytic_pd_preserves {N : ℕ}
    (applyOp : Operation N → StateVec N → StateVec N)
    (generator : Operation N → Option (String × ℚ))
    (decomposition : Operation N → List (Operation N))
    (t : QuantumTape N) (idx : ℕ) (d : Device N) (ps : List ℚ) :
    (ReversibleTape.analytic_pd applyOp generator decomposition t idx d
        ps).tape.trainable_params = t.trainable_params ∧
    (ReversibleTape.analytic_pd applyOp generator decomposition t idx d
        ps).tape.all_params.length = t.all_params.length := by
  unfold ReversibleTape.analytic_pd
  split
  · exact ⟨rfl, rfl⟩
  · split
    · exact ⟨rfl, rfl⟩
    · split
      · exact ⟨rfl, rfl⟩
      · split
        · rw [ReversibleTape.analytic_pd_core_tape]
          exact ⟨rfl, QuantumTape.set_parameters_all_params_length _ _⟩
        · exact ⟨rfl, rfl⟩

/-- A jacobian row loop preserves the trainable set and total parameter
count of the threaded tape. -/
theorem jacobianRows_preserves {N : ℕ}
    (applyOp : Operation N → StateVec N → StateVec N)
    (generator : Operation N → Option (String × ℚ))
    (decomposition : Operation N → List (Operation N))
    (idxs : List ℕ) (t : QuantumTape N) (d : Device N) (ps : List ℚ) :
    (jacobianRows applyOp generator decomposition idxs t d ps).2.1.trainable_params =
      t.trainable_params ∧
    (jacobianRows applyOp generator decomposition idxs t d ps).2.1.all_params.length =
      t.all_params.length := by
  induction idxs generalizing t d with
  | nil => exact ⟨rfl, rfl⟩
  | cons i rest ih =>
    obtain ⟨hp1, hp2⟩ := analytic_pd_preserves applyOp generator decomposition t i d ps
    unfold jacobianRows
    dsimp only
    split
    · exact ⟨hp1, hp2⟩
    · obtain ⟨hq1, hq2⟩ :=
        ih (ReversibleTape.analytic_pd applyOp generator decomposition t i d ps).tape
          (ReversibleTape.analytic_pd applyOp generator decomposition t i d ps).device
      split
      · exact ⟨hq1.trans hp1, hq2.trans hp2⟩
      · exact ⟨hq1.trans hp1, hq2.trans hp2⟩

/-- C9: with values matching the trainable set, both `execute` and
`jacobian` leave the tape's stored parameter values unchanged:
`get_parameters` returns the same values before and after the call, the
transient override affecting only that one call's evaluation. -/
theorem C9_transient_parameters {N : ℕ}
    (applyOp : Operation N → StateVec N → StateVec N)
    (generator : Operation N → Option (String × ℚ))
    (decomposition : Operation N → List (Operation N))
    (t : QuantumTape N) (d : Device N) (V : List ℚ)
    (hnd : t.trainable_params.Nodup)
    (hlt : ∀ g ∈ t.trainable_params, g < t.all_params.length)
    (_hlen : V.length = t.trainable_params.length) :
    ((QuantumTape.execute applyOp t d (some V)).2.1.get_parameters = t.get_parameters) ∧
    (∀ rows,
      (ReversibleTape.jacobian applyOp generator decomposition t d (some V)).out =
        Except.ok rows →
      (ReversibleTape.jacobian applyOp generator decomposition t d
          (some V)).tape.get_parameters = t.get_parameters) := by
  have hsavedlen : t.get_parameters.length = t.trainable_params.length :=
    QuantumTape.get_parameters_length t hlt
  constructor
  · unfold QuantumTape.execute
    dsimp only
    simp only [Option.getD_some]
    rw [QuantumTape.get_parameters_set_parameters (t.set_parameters V) t.get_parameters
      hnd ?_ hsavedlen]
    intro g hg
    rw [QuantumTape.set_parameters_all_params_length]
    exact hlt g hg
  · intro rows hok
    unfold ReversibleTape.jacobian QuantumTape.jacobianA at hok ⊢
    dsimp only at hok ⊢
    simp only [Option.getD_some] at hok ⊢
    obtain ⟨hq1, hq2⟩ := jacobianRows_preserves applyOp generator decomposition
      (List.range t.trainable_params.length) { t with state := none } d V
    cases hres : (jacobianRows applyOp generator decomposition
        (List.range t.trainable_params.length) { t with state := none } d V).1 with
    | error e =>
      rw [hres] at hok
      simp at hok
    | ok rows' =>
      rw [QuantumTape.get_parameters_set_parameters _ _
        (by rw [hq1]; exact hnd) ?_ (by rw [hq1]; exact hsavedlen)]
      · rfl
      · intro g hg
        rw [hq2]
        exact hlt g (by rwa [hq1] at hg)

/-- Witness for C9 on the concrete one-wire `RX` tape with override value
`5/7`. -/
theorem C9_witness :
    tapeRX.trainable_params.Nodup ∧
    ((QuantumTape.execute applyId tapeRX dev0 (some [5/7])).2.1.get_parameters =
      tapeRX.get_parameters) ∧
    ((ReversibleTape.jacobian applyId genTable decompTable tapeRX dev0
        (some [5/7])).tape.get_parameters = tapeRX.get_parameters) := by
  have h := C9_transient_parameters applyId genTable decompTable tapeRX dev0 [5/7]
    (by decide) (by decide) (by decide)
  exact ⟨by decide, h.1,
    h.2 ((ReversibleTape.jacobian applyId genTable decompTable tapeRX dev0
      (some [5/7])).out.toOption.getD []) (by rfl)⟩
